import Mathlib

/-!
Verification of the SMARTS pattern-matching core of `foyer`
(`src/foyer/smarts_graph.py`) via a shallow embedding in Lean 4.

The embedding mirrors the Python source:
* parsed SMARTS ASTs become the inductive type `AST`; Python object
  identity of AST nodes is modelled by the node's position (path of child
  indices) inside the tree, which is in bijection with the set of node
  objects of one tree;
* Python exceptions become the `EvalError` sum type and fallible code
  runs in `Except EvalError`;
* Python `None` leaking out of a function that falls off its end is
  modelled by `Option Bool` results (`none` = Python `None`), with
  Python truthiness given by `truthy`;
* the mutable topology (atoms gaining `cycles`/`whitelist`/`blacklist`
  attributes in place) becomes explicit state passing on `Topology`,
  with attribute absence modelled by `Option` fields.
-/

set_option autoImplicit false

namespace Foyer

/-- A node identity: the path of child indices from the AST root.  Distinct
nodes of one tree have distinct paths, so paths faithfully model Python's
`id()` keys for nodes of a fixed tree. -/
abbrev Path := List Nat

/-- A parsed SMARTS AST as produced by the external `plyplus` parser: a tree
node carries a `head` tag and a `tail` of children; tokens are plain
strings. -/
inductive AST where
  | node (head : String) (tail : List AST)
  | tok (s : String)

/-- Python errors that the translated code can raise. -/
inductive EvalError where
  | typeError (msg : String)
  | notImplementedError (msg : String)
  | foyerError (msg : String)
  | valueError (msg : String)
  | keyError (msg : String)
  | indexError (msg : String)
  | attributeError (msg : String)
  | stopIteration (msg : String)
  deriving DecidableEq, Repr

instance {ε α : Type} [DecidableEq ε] [DecidableEq α] : DecidableEq (Except ε α) := by
  intro a b
  cases a <;> cases b
  case error.error e₁ e₂ =>
    exact if h : e₁ = e₂ then .isTrue (by rw [h]) else .isFalse (by intro hc; cases hc; exact h rfl)
  case ok.ok a₁ a₂ =>
    exact if h : a₁ = a₂ then .isTrue (by rw [h]) else .isFalse (by intro hc; cases hc; exact h rfl)
  all_goals exact .isFalse (by intro hc; cases hc)

/-- Python truthiness of a value that is either a `bool` or `None`. -/
def truthy : Option Bool → Bool
  | none => false
  | some b => b

/-- Decimal digits to a number, `none` on a non-digit (written over the
character list so the kernel can evaluate it). -/
def digitsToNat : List Char → Nat → Option Nat
  | [], acc => some acc
  | c :: cs, acc =>
    if '0' ≤ c ∧ c ≤ '9' then digitsToNat cs (acc * 10 + (c.toNat - '0'.toNat))
    else none

/-- Python `int(s)` on a token, raising `ValueError` on non-numeric text. -/
def pyInt (s : String) : Except EvalError Nat :=
  match s.data with
  | [] => .error (.valueError s)
  | cs =>
    match digitsToNat cs 0 with
    | some n => .ok n
    | none => .error (.valueError s)

/-- Reading `t.tail[i]` as a token string: `IndexError` past the end, and a
`TypeError` stand-in when the element is a subtree rather than a token. -/
def tailTokAt (tail : List AST) (i : Nat) : Except EvalError String :=
  match tail.get? i with
  | some (.tok s) => .ok s
  | some (.node _ _) => .error (.typeError "expected token")
  | none => .error (.indexError "list index out of range")

/-- A molecule atom, with the fields the matcher reads.  `cycles`,
`whitelist` and `blacklist` are `Option`s because in the source they are
attributes attached dynamically by `_prepare_atoms`; `none` models the
attribute being absent (reading it raises `AttributeError`). -/
structure Atom where
  index : Nat
  atomicNumber : Nat
  elementName : String
  bondPartners : List Nat
  cycles : Option (List (List Nat)) := none
  whitelist : Option (List String) := none
  blacklist : Option (List String) := none
  deriving DecidableEq, Repr

/-- A molecule topology: the iteration contract `topology.atoms()` /
`topology.bonds()` used by the source, with bonds as index pairs. -/
structure Topology where
  atoms : List Atom
  bonds : List (Nat × Nat)
  deriving DecidableEq, Repr

/-- Modelled from the external `parmed.periodic_table.AtomicNum` dict:
a symbol-to-atomic-number table (a representative finite fragment; the
claims do not depend on its exact extent).  A missing key raises
`KeyError`, as for a Python dict. -/
def AtomicNum (s : String) : Option Nat :=
  match s with
  | "H" => some 1
  | "He" => some 2
  | "B" => some 5
  | "C" => some 6
  | "N" => some 7
  | "O" => some 8
  | "F" => some 9
  | "P" => some 15
  | "S" => some 16
  | "Cl" => some 17
  | "Br" => some 35
  | "I" => some 53
  | _ => none

/-- Translation of `SMARTSGraph._atom_id_matches` (smarts_graph.py lines
110-138).  The Python function has no `else` branch: an unrecognized head
falls off the end and returns `None`, modelled by `.ok none`. -/
def atom_id_matches (atom_id : AST) (atom : Atom) : Except EvalError (Option Bool) :=
  match atom_id with
  | .tok _ => .error (.attributeError "head")
  | .node h tail =>
    let atomic_num := atom.atomicNumber
    if h = "atomic_num" then do
      let s ← tailTokAt tail 0
      let n ← pyInt s
      pure (some (atomic_num == n))
    else if h = "atom_symbol" then do
      let s ← tailTokAt tail 0
      if s = "*" then
        pure (some true)
      else if s.data.head? = some '_' then
        pure (some (atom.elementName == s))
      else
        match AtomicNum s with
        | some n => pure (some (atomic_num == n))
        | none => .error (.keyError s)
    else if h = "has_label" then do
      let s ← tailTokAt tail 0
      let label := String.mk (s.data.drop 1)
      match atom.whitelist with
      | none => .error (.attributeError "whitelist")
      | some wl => pure (some (wl.contains label))
    else if h = "neighbor_count" then do
      let s ← tailTokAt tail 0
      let n ← pyInt s
      pure (some (atom.bondPartners.length == n))
    else if h = "ring_size" then do
      let s ← tailTokAt tail 0
      let cycle_len ← pyInt s
      match atom.cycles with
      | none => .error (.attributeError "cycles")
      | some cs => pure (some (cs.any (fun c => c.length == cycle_len)))
    else if h = "ring_count" then do
      let s ← tailTokAt tail 0
      let n ← pyInt s
      match atom.cycles with
      | none => .error (.attributeError "cycles")
      | some cs => pure (some (cs.length == n))
    else if h = "matches_string" then
      .error (.notImplementedError "matches_string is not yet implemented")
    else
      .ok none

/-- Translation of `SMARTSGraph._atom_expr_matches` (smarts_graph.py lines
93-108).  Python `and`/`or` short-circuit and return one of their operands,
so the value threaded through is `Option Bool` under `truthy`. -/
def atom_expr_matches (atom_expr : AST) (atom : Atom) : Except EvalError (Option Bool) :=
  match atom_expr with
  | .tok _ => .error (.attributeError "head")
  | .node h tail =>
    if h = "not_expression" then
      match tail with
      | [] => .error (.indexError "list index out of range")
      | t :: _ => do
        let v ← atom_expr_matches t atom
        pure (some (!(truthy v)))
    else if h = "and_expression" ∨ h = "weak_and_expression" then
      match tail with
      | [] => .error (.indexError "list index out of range")
      | t₁ :: rest => do
        let v₁ ← atom_expr_matches t₁ atom
        if truthy v₁ then
          match rest with
          | [] => .error (.indexError "list index out of range")
          | t₂ :: _ => atom_expr_matches t₂ atom
        else
          pure v₁
    else if h = "or_expression" then
      match tail with
      | [] => .error (.indexError "list index out of range")
      | t₁ :: rest => do
        let v₁ ← atom_expr_matches t₁ atom
        if truthy v₁ then
          pure v₁
        else
          match rest with
          | [] => .error (.indexError "list index out of range")
          | t₂ :: _ => atom_expr_matches t₂ atom
    else if h = "atom_id" then
      match tail with
      | [] => .error (.indexError "list index out of range")
      | t :: _ => atom_id_matches t atom
    else if h = "atom_symbol" then
      atom_id_matches (.node h tail) atom
    else
      .error (.typeError ("Expected and_expression, or_expression, or atom_id, got " ++ h))

mutual

/-- Translation of the `plyplus` `ast.select(head)` calls used by the source:
collect, in document (preorder, left-to-right) order, every node whose head is
`h`, as (path, node) pairs.  The path is the node's identity (`id(node)`). -/
def selectAux (h : String) (t : AST) (p : Path) : List (Path × AST) :=
  match t with
  | .tok _ => []
  | .node hd ts => (if hd = h then [(p, AST.node hd ts)] else []) ++ selectList h ts p 0

/-- Preorder collection over a list of siblings, numbering children from `i`. -/
def selectList (h : String) (ts : List AST) (p : Path) (i : Nat) : List (Path × AST) :=
  match ts with
  | [] => []
  | c :: rest => selectAux h c (p ++ [i]) ++ selectList h rest p (i + 1)

end

/-- Select on the whole tree (root has path `[]`). -/
def select (h : String) (t : AST) : List (Path × AST) := selectAux h t []

/-- Head test used when the source compares `node.head` against a tag; a
token has no `head` attribute and never equals a tag here (the source never
reaches that comparison on tokens for parser-produced trees). -/
def headIs (t : AST) (h : String) : Bool :=
  match t with
  | .node hd _ => hd == h
  | .tok _ => false

mutual

/-- Translation of `SMARTSGraph._add_edges` (smarts_graph.py lines 53-69):
iterate the children of `ast_node`, adding chain and branch edges; `p` is the
path of `ast_node` and `trunk` the path of the current trunk atom (`None` at
the top-level call).  Returns the edges added, or the `FoyerError` raised for
a branch with no trunk. -/
def _add_edges (ast_node : AST) (p : Path) (trunk : Option Path) :
    Except EvalError (List (Path × Path)) :=
  match ast_node with
  | .tok _ => .ok []
  | .node hd ts => addEdgesGo (hd == "branch") p ts 0 trunk

/-- The loop body of `_add_edges`: `bp` records whether the parent node is a
`branch`, `i` is the index of the first child in `cs` among its siblings. -/
def addEdgesGo (bp : Bool) (p : Path) (cs : List AST) (i : Nat) (trunk : Option Path) :
    Except EvalError (List (Path × Path)) :=
  match cs with
  | [] => .ok []
  | c :: rest =>
    if headIs c "atom" then
      match (if i == 0 && bp then
               match trunk with
               | none => Except.error (EvalError.foyerError "Can't add branch without a trunk")
               | some t => Except.ok [(p ++ [i], t)]
             else Except.ok []) with
      | .error e => .error e
      | .ok e₁ =>
        match rest with
        | [] => .ok e₁
        | next :: _ =>
          if headIs next "atom" then
            match addEdgesGo bp p rest (i + 1) trunk with
            | .error e => .error e
            | .ok es => .ok (e₁ ++ (p ++ [i], p ++ [i + 1]) :: es)
          else if headIs next "branch" then
            match addEdgesGo bp p rest (i + 1) (some (p ++ [i])) with
            | .error e => .error e
            | .ok es => .ok (e₁ ++ es)
          else
            match addEdgesGo bp p rest (i + 1) trunk with
            | .error e => .error e
            | .ok es => .ok (e₁ ++ es)
    else if headIs c "branch" then
      match _add_edges c (p ++ [i]) trunk with
      | .error e => .error e
      | .ok es =>
        match addEdgesGo bp p rest (i + 1) trunk with
        | .error e => .error e
        | .ok es₂ => .ok (es ++ es₂)
    else
      addEdgesGo bp p rest (i + 1) trunk

end

/-- The digit characters of an `atom_label` node's first token (the source's
`list(label.tail[0])`); `[]` for degenerate labels never produced by the
parser. -/
def labelChars (lab : AST) : List Char :=
  match lab with
  | .node _ (.tok s :: _) => s.data
  | _ => []

/-- The (digit, owning-atom) occurrences collected by the first loop of
`_add_label_edges`: for each `atom_label` node, one entry per digit character,
keyed to `label.parent()` (the path one step up). -/
def labelOccs (ast : AST) : List (Char × Path) :=
  (select "atom_label" ast).flatMap
    (fun pl => (labelChars pl.2).map (fun d => (d, pl.1.dropLast)))

/-- The `defaultdict` bucket for digit `d`: parents in append order. -/
def groupGet (occs : List (Char × Path)) (d : Char) : List Path :=
  (occs.filter (fun o => o.1 == d)).map (·.2)

/-- Key iteration order of a Python dict built by appending: first-occurrence
order of the keys. -/
def firstDedup (l : List Char) (seen : List Char) : List Char :=
  match l with
  | [] => []
  | c :: cs => if c ∈ seen then firstDedup cs seen else c :: firstDedup cs (c :: seen)

/-- A fallible map over a list, stopping at the first error (as a Python
`for` loop raising mid-iteration would). -/
def mapExcept {α β : Type} (f : α → Except EvalError β) : List α → Except EvalError (List β)
  | [] => .ok []
  | x :: xs => do
    let y ← f x
    let ys ← mapExcept f xs
    pure (y :: ys)

/-- The body of the second loop of `_add_label_edges`: unpack one digit's
bucket as exactly two atoms (Python tuple unpacking raises `ValueError` for
any other bucket size) and produce the ring-closure edge. -/
def unpackPair (occs : List (Char × Path)) (d : Char) : Except EvalError (Path × Path) :=
  match groupGet occs d with
  | [] => .error (.valueError "not enough values to unpack (expected 2, got 0)")
  | [_] => .error (.valueError "not enough values to unpack (expected 2, got 1)")
  | [a₁, a₂] => .ok (a₁, a₂)
  | _ => .error (.valueError "too many values to unpack (expected 2)")

/-- Translation of `SMARTSGraph._add_label_edges` (smarts_graph.py lines
71-86): group ring-closure digits, then unpack each bucket and add an edge
between its two atoms.  With no `atom_label` nodes it returns no edges and
no error. -/
def _add_label_edges (ast : AST) : Except EvalError (List (Path × Path)) :=
  let labels := select "atom_label" ast
  if labels.isEmpty then .ok []
  else
    let occs := labelOccs ast
    mapExcept (unpackPair occs) (firstDedup (occs.map (·.1)) [])

/-- The pattern graph built by `SMARTSGraph.__init__`: its node list (an
`OrderedDict` in the source, so insertion order — the order of
`select('atom')` — is preserved), its edge list, and the underlying AST. -/
structure SMARTSGraph where
  nodes : List (Path × AST)
  edges : List (Path × Path)
  ast : AST

/-- Translation of the graph-building part of `SMARTSGraph.__init__`
(smarts_graph.py lines 44-46): `_add_nodes`, `_add_edges` on the root with no
trunk, then `_add_label_edges`. -/
def SMARTSGraph.build (ast : AST) : Except EvalError SMARTSGraph := do
  let ns := select "atom" ast
  let es₁ ← _add_edges ast [] none
  let es₂ ← _add_label_edges ast
  pure ⟨ns, es₁ ++ es₂, ast⟩

/-- The type of the external `networkx.cycle_basis` building block: from the
molecule graph's nodes (atom indices) and edges (bonds) to a list of cycles.
The source treats it as an opaque collaborator, so the development is
parametric in it. -/
abbrev CycleBasisFn := List Nat → List (Nat × Nat) → List (List Nat)

/-- Translation of `_prepare_atoms` (smarts_graph.py lines 177-194).  The
source mutates atoms in place; here the updated topology is returned.
`next(topology.atoms())` on an empty topology raises `StopIteration`, which
PEP 479 turns into `RuntimeError('generator raised StopIteration')` when it
escapes into the calling generator `find_matches`; both are one fatal error
here.  The `hasattr(atom1, 'whitelist')` memoization check is
`whitelist.isSome` on the first atom.  Each atom ends with the set of basis
cycles containing it (Python `set` of tuples: duplicates collapse, modelled
by `dedup`), and fresh empty white- and blacklists. -/
def _prepare_atoms (cycle_basis : CycleBasisFn) (topology : Topology) :
    Except EvalError Topology :=
  match topology.atoms.head? with
  | none => .error (.stopIteration "generator raised StopIteration")
  | some atom1 =>
    if atom1.whitelist.isSome then .ok topology
    else
      let cycles := cycle_basis (topology.atoms.map (·.index)) topology.bonds
      .ok { topology with
            atoms := topology.atoms.map (fun a =>
              { a with
                cycles := some ((cycles.filter (fun c => a.index ∈ c)).dedup)
                whitelist := some []
                blacklist := some [] }) }

/-- The node set of the molecule graph built in `find_matches` (smarts_graph.py
lines 158-162): `add_nodes_from` over atom indices, then `add_edges_from`
also inserts any bond endpoint not yet present; `networkx` node sets collapse
duplicates. -/
def hostNodesOf (topology : Topology) : List Nat :=
  (topology.atoms.map (·.index) ++ topology.bonds.flatMap (fun b => [b.1, b.2])).dedup

/-- Undirected adjacency of the molecule graph: the bond list in either
orientation. -/
def hostAdj (bonds : List (Nat × Nat)) (x y : Nat) : Bool :=
  bonds.any (fun b => (b.1 == x && b.2 == y) || (b.1 == y && b.2 == x))

/-- Undirected adjacency of the pattern graph. -/
def patAdj (edges : List (Path × Path)) (x y : Path) : Bool :=
  edges.any (fun e => (e.1 == x && e.2 == y) || (e.1 == y && e.2 == x))

/-- Translation of `SMARTSGraph._node_match` (smarts_graph.py lines 88-91)
as the compatibility test between host atom index `hIdx` and pattern node
`pPath`: fetch the host atom payload and the pattern node's `atom` AST, and
evaluate `_atom_expr_matches` on `pattern['atom'].tail[0]`; `networkx` uses
the result's truthiness. -/
def node_match (g : SMARTSGraph) (atoms : List Atom) (hIdx : Nat) (pPath : Path) :
    Except EvalError Bool :=
  match atoms.find? (fun a => a.index == hIdx) with
  | none => .error (.keyError "atom")
  | some atom =>
    match g.nodes.find? (fun n => n.1 == pPath) with
    | none => .error (.keyError "atom")
    | some (_, patAtom) =>
      match patAtom with
      | .node _ (atomExpr :: _) => do
        let v ← atom_expr_matches atomExpr atom
        pure (truthy v)
      | _ => .error (.indexError "list index out of range")

/-- All injective assignments of a host node to each pattern node, as
(host, pattern) pair lists in `mapping.items()` orientation. -/
def injectionsHP (ps : List Path) (hs : List Nat) : List (List (Nat × Path)) :=
  match ps with
  | [] => [[]]
  | p :: ps' => hs.flatMap (fun h => (injectionsHP ps' (hs.erase h)).map (fun m => (h, p) :: m))

/-- Induced-subgraph structural compatibility of one candidate mapping: for
every pair of mapped nodes, pattern adjacency and host adjacency agree
(`networkx.GraphMatcher` matches node-induced subgraphs, so extra host edges
between mapped nodes are rejected too). -/
def structOk (pedges : List (Path × Path)) (bonds : List (Nat × Nat))
    (m : List (Nat × Path)) : Bool :=
  m.all (fun pr => m.all (fun qr => patAdj pedges pr.2 qr.2 == hostAdj bonds pr.1 qr.1))

/-- Run a fallible Boolean test over a list, keeping the passers
(errors propagate, as a Python exception would). -/
def filterExcept {α : Type} (f : α → Except EvalError Bool) :
    List α → Except EvalError (List α)
  | [] => .ok []
  | x :: xs => do
    let b ← f x
    let rest ← filterExcept f xs
    pure (if b then x :: rest else rest)

/-- Fallible universal test over a list. -/
def allExcept {α : Type} (f : α → Except EvalError Bool) : List α → Except EvalError Bool
  | [] => .ok true
  | x :: xs => do
    let b ← f x
    if b then allExcept f xs else pure false

/-- Modelled from the spec: the external
`networkx.isomorphism.GraphMatcher(g, self, node_match).subgraph_isomorphisms_iter()`
building block (spec section 2 treats the general subgraph-isomorphism search
as an external collaborator).  It enumerates every mapping of the pattern
graph onto a node-induced subgraph of the molecule graph that satisfies the
node-compatibility predicate, each mapping in host-to-pattern orientation. -/
def subgraph_isomorphisms_iter (g : SMARTSGraph) (topology : Topology) :
    Except EvalError (List (List (Nat × Path))) :=
  let cands := injectionsHP (g.nodes.map (·.1)) (hostNodesOf topology)
  let cands₂ := cands.filter (structOk g.edges topology.bonds)
  filterExcept (fun m => allExcept (fun pr => node_match g topology.atoms pr.1 pr.2) m) cands₂

/-- The lookup `mapping[first_atom]` performed after the dict inversion
`{node_id: atom_id for atom_id, node_id in mapping.items()}`: a dict built
left to right keeps the last binding of a key, and a missing key is a
`KeyError` (`none` here). -/
def invLookup (m : List (Nat × Path)) (root : Path) : Option Nat :=
  (m.reverse.find? (fun pr => pr.2 == root)).map (·.1)

/-- The projection-and-deduplication loop of `find_matches` (smarts_graph.py
lines 168-174): for each mapping, look up the atom bound to the root pattern
node and yield it unless already yielded. -/
def dedupLoop (mappings : List (List (Nat × Path))) (root : Path) (matched : List Nat) :
    Except EvalError (List Nat) :=
  match mappings with
  | [] => .ok []
  | m :: ms =>
    match invLookup m root with
    | none => .error (.keyError "first_atom")
    | some atomIndex =>
      if atomIndex ∈ matched then dedupLoop ms root matched
      else do
        let rest ← dedupLoop ms root (atomIndex :: matched)
        pure (atomIndex :: rest)

/-- Translation of `SMARTSGraph.find_matches` (smarts_graph.py lines
140-174).  `find_matches` is a generator, so the `return False` on a null
topology just ends the sequence: callers observe an empty yield sequence, not
a value.  `first_atom = next(self.nodes_iter())` is the first-inserted
pattern node; on a pattern graph with no nodes it raises (`StopIteration`
converted by PEP 479).  The lazily-yielded indices are collected into the
returned list. -/
def find_matches (cycle_basis : CycleBasisFn) (g : SMARTSGraph)
    (topology : Option Topology) : Except EvalError (List Nat) :=
  match topology with
  | none => .ok []
  | some topo => do
    let topo' ← _prepare_atoms cycle_basis topo
    match g.nodes.head? with
    | none => .error (.stopIteration "generator raised StopIteration")
    | some firstAtom => do
      let mappings ← subgraph_isomorphisms_iter g topo'
      dedupLoop mappings firstAtom.1 []

/-!  Specification-side definitions, used to state the claims. -/

/-- The expression heads the boolean-connective level of the evaluator
supports (spec section 4.2). -/
def supportedExprHeads : List String :=
  ["not_expression", "and_expression", "weak_and_expression", "or_expression",
   "atom_id", "atom_symbol"]

/-- The leaf heads the leaf-predicate level of the evaluator handles
(spec section 4.2). -/
def supportedLeafHeads : List String :=
  ["atomic_num", "atom_symbol", "has_label", "neighbor_count", "ring_size",
   "ring_count", "matches_string"]

/-- The spec-side boolean-algebra denotation of a constraint tree (spec
section 4.2): NOT/AND/OR over the leaf predicate evaluator's verdicts, with
`atom_id` and bare `atom_symbol` dispatched to the leaf evaluator.  Junk
values at ill-formed nodes are irrelevant under `WFConstraint`. -/
def booleanDenote (atom : Atom) : AST → Bool
  | .node "not_expression" (t :: _) => !(booleanDenote atom t)
  | .node "and_expression" (t₁ :: t₂ :: _) => booleanDenote atom t₁ && booleanDenote atom t₂
  | .node "weak_and_expression" (t₁ :: t₂ :: _) => booleanDenote atom t₁ && booleanDenote atom t₂
  | .node "or_expression" (t₁ :: t₂ :: _) => booleanDenote atom t₁ || booleanDenote atom t₂
  | .node "atom_id" (t :: _) =>
    match atom_id_matches t atom with
    | .ok (some b) => b
    | _ => false
  | .node "atom_symbol" ts =>
    match atom_id_matches (.node "atom_symbol" ts) atom with
    | .ok (some b) => b
    | _ => false
  | _ => false

/-- Well-formed constraint trees over the supported connective kinds whose
leaves evaluate without error to an actual boolean for the given atom. -/
inductive WFConstraint (atom : Atom) : AST → Prop where
  | notE {t ts} : WFConstraint atom t →
      WFConstraint atom (.node "not_expression" (t :: ts))
  | andE {t₁ t₂ ts} : WFConstraint atom t₁ → WFConstraint atom t₂ →
      WFConstraint atom (.node "and_expression" (t₁ :: t₂ :: ts))
  | weakAndE {t₁ t₂ ts} : WFConstraint atom t₁ → WFConstraint atom t₂ →
      WFConstraint atom (.node "weak_and_expression" (t₁ :: t₂ :: ts))
  | orE {t₁ t₂ ts} : WFConstraint atom t₁ → WFConstraint atom t₂ →
      WFConstraint atom (.node "or_expression" (t₁ :: t₂ :: ts))
  | atomId {t ts b} : atom_id_matches t atom = .ok (some b) →
      WFConstraint atom (.node "atom_id" (t :: ts))
  | atomSymbol {ts b} : atom_id_matches (.node "atom_symbol" ts) atom = .ok (some b) →
      WFConstraint atom (.node "atom_symbol" ts)

/-- An embedding of the pattern graph into the (prepared) molecule graph, as
spec section 3 describes it: a total, injective assignment of molecule-graph
nodes to pattern nodes that preserves adjacency exactly between mapped nodes
and satisfies the node-compatibility predicate, written in the
host-to-pattern pair orientation of the search's output. -/
def IsEmbedding (g : SMARTSGraph) (topology : Topology) (m : List (Nat × Path)) : Prop :=
  m.map (·.2) = g.nodes.map (·.1) ∧
  (∀ pr ∈ m, pr.1 ∈ hostNodesOf topology) ∧
  (m.map (·.1)).Nodup ∧
  (∀ pr ∈ m, ∀ qr ∈ m, patAdj g.edges pr.2 qr.2 = hostAdj topology.bonds pr.1 qr.1) ∧
  (∀ pr ∈ m, node_match g topology.atoms pr.1 pr.2 = .ok true)

/-!  Helper lemmas. -/

theorem except_bind_ok {α β : Type} {x : Except EvalError α} {f : α → Except EvalError β}
    {b : β} : x >>= f = .ok b ↔ ∃ a, x = .ok a ∧ f a = .ok b := by
  cases x <;> simp [Bind.bind, Except.bind]

theorem mapExcept_ok_forall {α β : Type} {f : α → Except EvalError β} :
    ∀ {l : List α} {ys : List β}, mapExcept f l = .ok ys →
      ∀ x ∈ l, ∃ y, f x = .ok y ∧ y ∈ ys := by
  intro l
  induction l with
  | nil => simp
  | cons a as ih =>
    intro ys h x hx
    rw [mapExcept, except_bind_ok] at h
    obtain ⟨y, hy, h⟩ := h
    rw [except_bind_ok] at h
    obtain ⟨ys', hys', h⟩ := h
    simp only [Pure.pure] at h
    cases h
    rcases List.mem_cons.mp hx with rfl | hx'
    · exact ⟨y, hy, List.mem_cons_self _ _⟩
    · obtain ⟨y', hy', hmem⟩ := ih hys' x hx'
      exact ⟨y', hy', List.mem_cons_of_mem _ hmem⟩

theorem mapExcept_ok_mem {α β : Type} {f : α → Except EvalError β} :
    ∀ {l : List α} {ys : List β}, mapExcept f l = .ok ys →
      ∀ y ∈ ys, ∃ x ∈ l, f x = .ok y := by
  intro l
  induction l with
  | nil =>
    intro ys h y hy
    rw [mapExcept] at h
    cases h
    cases hy
  | cons a as ih =>
    intro ys h y hy
    rw [mapExcept, except_bind_ok] at h
    obtain ⟨y₁, hy₁, h⟩ := h
    rw [except_bind_ok] at h
    obtain ⟨ys', hys', h⟩ := h
    simp only [Pure.pure] at h
    cases h
    rcases List.mem_cons.mp hy with rfl | hy'
    · exact ⟨a, List.mem_cons_self _ _, hy₁⟩
    · obtain ⟨x, hx, hfx⟩ := ih hys' y hy'
      exact ⟨x, List.mem_cons_of_mem _ hx, hfx⟩

theorem mapExcept_error {α β : Type} {f : α → Except EvalError β} :
    ∀ {l : List α} {e : EvalError}, mapExcept f l = .error e → ∃ x ∈ l, f x = .error e := by
  intro l
  induction l with
  | nil =>
    intro e h
    rw [mapExcept] at h
    cases h
  | cons a as ih =>
    intro e h
    rw [mapExcept] at h
    cases hfa : f a with
    | error e' =>
      rw [hfa] at h
      cases h
      exact ⟨a, List.mem_cons_self _ _, hfa⟩
    | ok y =>
      rw [hfa] at h
      simp only [Bind.bind, Except.bind] at h
      cases hms : mapExcept f as with
      | error e' =>
        rw [hms] at h
        cases h
        obtain ⟨x, hx, hfx⟩ := ih hms
        exact ⟨x, List.mem_cons_of_mem _ hx, hfx⟩
      | ok ys' =>
        rw [hms] at h
        simp only [Pure.pure] at h
        cases h

theorem firstDedup_mem :
    ∀ (l seen : List Char) (c : Char), c ∈ firstDedup l seen ↔ c ∈ l ∧ c ∉ seen := by
  intro l
  induction l with
  | nil => simp [firstDedup]
  | cons a as ih =>
    intro seen c
    rw [firstDedup]
    by_cases ha : a ∈ seen
    · rw [if_pos ha, ih]
      simp only [List.mem_cons]
      constructor
      · rintro ⟨h1, h2⟩
        exact ⟨Or.inr h1, h2⟩
      · rintro ⟨h1, h2⟩
        refine ⟨h1.resolve_left ?_, h2⟩
        rintro rfl
        exact h2 ha
    · rw [if_neg ha]
      simp only [List.mem_cons, ih]
      constructor
      · rintro (rfl | ⟨h1, h2⟩)
        · exact ⟨Or.inl rfl, ha⟩
        · exact ⟨Or.inr h1, fun hc => h2 (Or.inr hc)⟩
      · rintro ⟨rfl | h1, h2⟩
        · exact Or.inl rfl
        · by_cases hca : c = a
          · exact Or.inl hca
          · exact Or.inr ⟨h1, fun hc => hc.elim hca h2⟩

theorem groupGet_ne_nil {occs : List (Char × Path)} {d : Char}
    (h : groupGet occs d ≠ []) : d ∈ occs.map (·.1) := by
  obtain ⟨x, hx⟩ := List.exists_mem_of_ne_nil _ h
  unfold groupGet at hx
  obtain ⟨o, ho, rfl⟩ := List.mem_map.mp hx
  obtain ⟨ho₁, ho₂⟩ := List.mem_filter.mp ho
  exact List.mem_map.mpr ⟨o, ho₁, by simpa using ho₂⟩

theorem labelOccs_of_no_labels {ast : AST} (h : select "atom_label" ast = []) :
    labelOccs ast = [] := by
  unfold labelOccs
  rw [h]
  rfl

theorem filterExcept_ok_mem {α : Type} {f : α → Except EvalError Bool} :
    ∀ {l out : List α}, filterExcept f l = .ok out →
      ∀ x ∈ out, x ∈ l ∧ f x = .ok true := by
  intro l
  induction l with
  | nil =>
    intro out h x hx
    rw [filterExcept] at h
    cases h
    cases hx
  | cons a as ih =>
    intro out h x hx
    rw [filterExcept, except_bind_ok] at h
    obtain ⟨b, hb, h⟩ := h
    rw [except_bind_ok] at h
    obtain ⟨rest, hrest, hp⟩ := h
    simp only [Pure.pure] at hp
    cases hp
    cases b with
    | false =>
      simp only [Bool.false_eq_true, if_false] at hx
      obtain ⟨hx', hfx⟩ := ih hrest x hx
      exact ⟨List.mem_cons_of_mem _ hx', hfx⟩
    | true =>
      simp only [if_true] at hx
      rcases List.mem_cons.mp hx with rfl | hx'
      · exact ⟨List.mem_cons_self _ _, hb⟩
      · obtain ⟨hx'', hfx⟩ := ih hrest x hx'
        exact ⟨List.mem_cons_of_mem _ hx'', hfx⟩

theorem allExcept_ok_true {α : Type} {f : α → Except EvalError Bool} :
    ∀ {l : List α}, allExcept f l = .ok true → ∀ x ∈ l, f x = .ok true := by
  intro l
  induction l with
  | nil =>
    intro h x hx
    cases hx
  | cons a as ih =>
    intro h x hx
    rw [allExcept, except_bind_ok] at h
    obtain ⟨b, hb, h⟩ := h
    cases b with
    | false => simp [Pure.pure, Except.pure] at h
    | true =>
      simp only [if_true] at h
      rcases List.mem_cons.mp hx with rfl | hx'
      · exact hb
      · exact ih h x hx'

theorem injectionsHP_sound :
    ∀ (ps : List Path) (hs : List Nat) (m : List (Nat × Path)), m ∈ injectionsHP ps hs →
      m.map (·.2) = ps ∧ (∀ pr ∈ m, pr.1 ∈ hs) ∧ (hs.Nodup → (m.map (·.1)).Nodup) := by
  intro ps
  induction ps with
  | nil =>
    intro hs m hm
    simp only [injectionsHP, List.mem_singleton] at hm
    subst hm
    simp
  | cons p ps ih =>
    intro hs m hm
    simp only [injectionsHP, List.mem_flatMap, List.mem_map] at hm
    obtain ⟨h, hh, m', hm', rfl⟩ := hm
    obtain ⟨hmap, hsub, hnd⟩ := ih (hs.erase h) m' hm'
    refine ⟨by simp [hmap], ?_, ?_⟩
    · intro pr hpr
      rcases List.mem_cons.mp hpr with rfl | hpr'
      · exact hh
      · exact List.mem_of_mem_erase (hsub pr hpr')
    · intro hnodup
      simp only [List.map_cons, List.nodup_cons]
      refine ⟨?_, hnd (hnodup.erase h)⟩
      intro hc
      obtain ⟨pr, hpr, hfst⟩ := List.mem_map.mp hc
      have hin : pr.1 ∈ hs.erase h := hsub pr hpr
      rw [hfst] at hin
      exact absurd ((List.Nodup.mem_erase_iff hnodup).mp hin).1 (by simp)

theorem subgraph_isomorphisms_sound {g : SMARTSGraph} {topo : Topology}
    {mappings : List (List (Nat × Path))} {m : List (Nat × Path)}
    (h : subgraph_isomorphisms_iter g topo = .ok mappings) (hm : m ∈ mappings) :
    IsEmbedding g topo m := by
  unfold subgraph_isomorphisms_iter at h
  obtain ⟨hin, hall⟩ := filterExcept_ok_mem h m hm
  obtain ⟨hcand, hstruct⟩ := List.mem_filter.mp hin
  obtain ⟨hmap, hsub, hnd⟩ := injectionsHP_sound _ _ _ hcand
  refine ⟨hmap, hsub, hnd (List.nodup_dedup _), ?_, fun pr hpr => allExcept_ok_true hall pr hpr⟩
  intro pr hpr qr hqr
  simp only [structOk, List.all_eq_true] at hstruct
  simpa using hstruct pr hpr qr hqr

theorem dedupLoop_props :
    ∀ (ms : List (List (Nat × Path))) (root : Path) (matched ys : List Nat),
      dedupLoop ms root matched = .ok ys →
      ys.Nodup ∧ (∀ y ∈ ys, y ∉ matched) ∧
      (∀ y ∈ ys, ∃ m ∈ ms, invLookup m root = some y) := by
  intro ms
  induction ms with
  | nil =>
    intro root matched ys h
    rw [dedupLoop] at h
    cases h
    simp
  | cons m ms ih =>
    intro root matched ys h
    rw [dedupLoop] at h
    split at h
    · cases h
    · next idx hl =>
      by_cases hmem : idx ∈ matched
      · rw [if_pos hmem] at h
        obtain ⟨h1, h2, h3⟩ := ih root matched ys h
        refine ⟨h1, h2, fun y hy => ?_⟩
        obtain ⟨m', hm', hi⟩ := h3 y hy
        exact ⟨m', List.mem_cons_of_mem _ hm', hi⟩
      · rw [if_neg hmem, except_bind_ok] at h
        obtain ⟨rest, hrest, hp⟩ := h
        simp only [Pure.pure] at hp
        cases hp
        obtain ⟨h1, h2, h3⟩ := ih root (idx :: matched) rest hrest
        refine ⟨?_, ?_, ?_⟩
        · exact List.nodup_cons.mpr
            ⟨fun hc => (h2 idx hc) (List.mem_cons_self _ _), h1⟩
        · intro y hy
          rcases List.mem_cons.mp hy with rfl | hy'
          · exact hmem
          · exact fun hc => (h2 y hy') (List.mem_cons_of_mem _ hc)
        · intro y hy
          rcases List.mem_cons.mp hy with rfl | hy'
          · exact ⟨m, List.mem_cons_self _ _, hl⟩
          · obtain ⟨m', hm', hi⟩ := h3 y hy'
            exact ⟨m', List.mem_cons_of_mem _ hm', hi⟩

/-!  Claim theorems. -/

/-- C5: for every pattern, `find_matches` with a null topology produces an
empty sequence of atom indices; no error is raised and no atom is yielded
(the generator's `return False` just ends the lazy sequence). -/
theorem find_matches_null_topology (cycle_basis : CycleBasisFn) (g : SMARTSGraph) :
    find_matches cycle_basis g none = .ok [] := rfl

/-- C10: for every pattern, `find_matches` on a non-null topology with zero
atoms raises rather than yielding an empty sequence: `_prepare_atoms`
unconditionally takes `next(topology.atoms())`, which on an empty iterator
raises `StopIteration` (surfaced as `RuntimeError` by PEP 479 inside the
generator). -/
theorem find_matches_empty_topology_raises (cycle_basis : CycleBasisFn)
    (g : SMARTSGraph) (bonds : List (Nat × Nat)) :
    find_matches cycle_basis g (some ⟨[], bonds⟩) =
      .error (.stopIteration "generator raised StopIteration") := rfl

/-- C7: topology preparation is idempotent per topology instance: a prepare
call on an already-prepared topology (its first atom carries the derived
whitelist state) skips all work and leaves every atom's cycle-membership
set, whitelist and blacklist unchanged — so `ring_size` and `ring_count`
predicate evaluation, which reads only that per-atom state, is stable across
repeated preparation. -/
theorem prepare_atoms_idempotent (cycle_basis : CycleBasisFn) (t t' : Topology)
    (h : _prepare_atoms cycle_basis t = .ok t') :
    _prepare_atoms cycle_basis t' = .ok t' := by
  unfold _prepare_atoms at h ⊢
  split at h
  · exact absurd h (by simp)
  case h_2 atom1 heq =>
    split at h
    case isTrue hw =>
      cases h
      rw [heq]
      simp [hw]
    case isFalse hw =>
      cases h
      simp [List.head?_eq_head, List.head?_map, heq]

/-- A concrete topology and cycle-basis stub exercising `_prepare_atoms`. -/
def witnessTopo : Topology :=
  { atoms := [
      { index := 0, atomicNumber := 6, elementName := "C", bondPartners := [1] },
      { index := 1, atomicNumber := 8, elementName := "O", bondPartners := [0] }],
    bonds := [(0, 1)] }

/-- A cycle-basis stub returning one 2-cycle over the bond. -/
def witnessCB : CycleBasisFn := fun _ _ => [[0, 1]]

theorem prepare_atoms_idempotent_witness :
    ∃ t', _prepare_atoms witnessCB witnessTopo = .ok t' ∧
      _prepare_atoms witnessCB t' = .ok t' :=
  ⟨_, rfl, prepare_atoms_idempotent witnessCB witnessTopo _ rfl⟩

/-- C8: evaluating a `matches_string` leaf predicate fails with an explicit
`NotImplementedError` for every atom, a signal distinguishable (as a distinct
error constructor) from the `TypeError`, `FoyerError` and `ValueError` used
for malformed patterns; it never returns a boolean. -/
theorem matches_string_not_implemented (atom : Atom) (ts : List AST) :
    atom_id_matches (.node "matches_string" ts) atom =
      .error (.notImplementedError "matches_string is not yet implemented") ∧
    (∀ msg : String,
      EvalError.notImplementedError "matches_string is not yet implemented" ≠
        EvalError.typeError msg ∧
      EvalError.notImplementedError "matches_string is not yet implemented" ≠
        EvalError.foyerError msg ∧
      EvalError.notImplementedError "matches_string is not yet implemented" ≠
        EvalError.valueError msg) := by
  refine ⟨by simp [atom_id_matches], fun msg => ⟨?_, ?_, ?_⟩⟩ <;> intro hc <;> cases hc

/-- C2: on every well-formed constraint tree, of any depth, the evaluator
computes exactly the boolean algebra of its connectives — `not_expression`
negates its child, `and_expression`/`weak_and_expression` conjoin their two
children, `or_expression` disjoins them — with `atom_id` and `atom_symbol`
nodes dispatched to the leaf predicate evaluator. -/
theorem atom_expr_matches_boolean_algebra (atom : Atom) (e : AST)
    (h : WFConstraint atom e) :
    atom_expr_matches e atom = .ok (some (booleanDenote atom e)) := by
  induction h with
  | notE hwf ih =>
    rw [atom_expr_matches.eq_def]
    simp [booleanDenote, ih, truthy, Bind.bind, Except.bind, Pure.pure, Except.pure]
  | andE h1 h2 ih1 ih2 =>
    rename_i t₁ t₂ ts
    rw [atom_expr_matches.eq_def]
    cases hd : booleanDenote atom t₁ <;>
      simp [booleanDenote, ih1, ih2, hd, truthy, Bind.bind, Except.bind,
        Pure.pure, Except.pure]
  | weakAndE h1 h2 ih1 ih2 =>
    rename_i t₁ t₂ ts
    rw [atom_expr_matches.eq_def]
    cases hd : booleanDenote atom t₁ <;>
      simp [booleanDenote, ih1, ih2, hd, truthy, Bind.bind, Except.bind,
        Pure.pure, Except.pure]
  | orE h1 h2 ih1 ih2 =>
    rename_i t₁ t₂ ts
    rw [atom_expr_matches.eq_def]
    cases hd : booleanDenote atom t₁ <;>
      simp [booleanDenote, ih1, ih2, hd, truthy, Bind.bind, Except.bind,
        Pure.pure, Except.pure]
  | atomId hleaf =>
    rename_i t ts b
    rw [atom_expr_matches.eq_def]
    simp [booleanDenote, hleaf]
  | atomSymbol hleaf =>
    rename_i ts b
    rw [atom_expr_matches.eq_def]
    simp [booleanDenote, hleaf]

/-- A concrete atom for witnesses: a carbon with no neighbors. -/
def witnessAtom : Atom :=
  { index := 0, atomicNumber := 6, elementName := "C", bondPartners := [] }

/-- A concrete nested constraint: `and(atomic_num 6, not(atomic_num 8))`. -/
def witnessExpr : AST :=
  .node "and_expression" [
    .node "atom_id" [.node "atomic_num" [.tok "6"]],
    .node "not_expression" [.node "atom_id" [.node "atomic_num" [.tok "8"]]]]

theorem atom_expr_matches_boolean_algebra_witness :
    atom_expr_matches witnessExpr witnessAtom = .ok (some true) := by
  have h1 : atom_id_matches (.node "atomic_num" [.tok "6"]) witnessAtom = .ok (some true) := by
    decide
  have h2 : atom_id_matches (.node "atomic_num" [.tok "8"]) witnessAtom = .ok (some false) := by
    decide
  have h := atom_expr_matches_boolean_algebra witnessAtom witnessExpr
    (.andE (.atomId h1) (.notE (.atomId h2)))
  rw [h]
  simp [booleanDenote, witnessExpr, h1, h2]

/-- C6 counterexample: a leaf node of unexpected kind is not detected by the
leaf-predicate evaluator — it silently returns Python `None` (falsy, coerced
to no-match by the matcher's truthiness test), not an error, both when called
directly and through the `atom_id` dispatch. -/
theorem eval_unexpected_leaf_kind_cex :
    atom_id_matches (.node "bogus_kind" []) witnessAtom = .ok none ∧
    atom_expr_matches (.node "atom_id" [.node "bogus_kind" []]) witnessAtom = .ok none ∧
    truthy none = false :=
  ⟨rfl, rfl, rfl⟩

/-- C6 amended: at the boolean-connective level an unexpected expression kind
raises a `TypeError` naming the offending kind, but at the leaf-predicate
level an unexpected kind is silently evaluated to Python `None` — which the
matcher's truthiness test coerces to "no match" — rather than failing. -/
theorem eval_unexpected_kind_amended (atom : Atom) (h : String) (ts : List AST) :
    (h ∉ supportedExprHeads →
      atom_expr_matches (.node h ts) atom =
        .error (.typeError ("Expected and_expression, or_expression, or atom_id, got " ++ h))) ∧
    (h ∉ supportedLeafHeads → atom_id_matches (.node h ts) atom = .ok none) := by
  constructor
  · intro hmem
    simp only [supportedExprHeads, List.mem_cons, List.not_mem_nil, or_false] at hmem
    push_neg at hmem
    obtain ⟨h1, h2, h3, h4, h5, h6⟩ := hmem
    rw [atom_expr_matches.eq_def]
    simp [h1, h2, h3, h4, h5, h6]
  · intro hmem
    simp only [supportedLeafHeads, List.mem_cons, List.not_mem_nil, or_false] at hmem
    push_neg at hmem
    obtain ⟨h1, h2, h3, h4, h5, h6, h7⟩ := hmem
    rw [atom_id_matches.eq_def]
    simp [h1, h2, h3, h4, h5, h6, h7]

theorem eval_unexpected_kind_amended_witness :
    atom_expr_matches (.node "bogus_kind" []) witnessAtom =
      .error (.typeError ("Expected and_expression, or_expression, or atom_id, got " ++ "bogus_kind")) ∧
    atom_id_matches (.node "bogus_kind" []) witnessAtom = .ok none :=
  ⟨(eval_unexpected_kind_amended witnessAtom "bogus_kind" []).1 (by decide),
   (eval_unexpected_kind_amended witnessAtom "bogus_kind" []).2 (by decide)⟩

/-- C9: while building pattern-graph edges, an atom that is the first child
of a `branch` node raises the structural `FoyerError` when no trunk atom has
been established, and is connected to the trunk atom by an edge when one
exists. -/
theorem add_edges_branch_trunk (p tPath : Path) (aTail rest : List AST) :
    (_add_edges (.node "branch" (.node "atom" aTail :: rest)) p none =
      .error (.foyerError "Can't add branch without a trunk")) ∧
    (∀ es, _add_edges (.node "branch" (.node "atom" aTail :: rest)) p (some tPath) = .ok es →
      (p ++ [0], tPath) ∈ es) := by
  constructor
  · simp [_add_edges, addEdgesGo, headIs]
  · intro es hok
    rw [_add_edges] at hok
    cases rest with
    | nil =>
      simp only [addEdgesGo, headIs] at hok
      simp at hok
      simp [← hok]
    | cons next rest' =>
      simp only [addEdgesGo, headIs] at hok
      simp at hok
      by_cases ha : headIs next "atom"
      · rw [if_pos (by simpa [headIs] using ha)] at hok
        split at hok
        · cases hok
        · cases hok
          simp
      · rw [if_neg (by simpa [headIs] using ha)] at hok
        by_cases hb : headIs next "branch"
        · rw [if_pos (by simpa [headIs] using hb)] at hok
          split at hok
          · cases hok
          · cases hok
            simp
        · rw [if_neg (by simpa [headIs] using hb)] at hok
          split at hok
          · cases hok
          · cases hok
            simp

/-- A pattern whose single atom carries ring label text `11`: the digit `1`
occurs twice on the same atom. -/
def selfLoopPattern : AST :=
  .node "start" [
    .node "atom" [.node "atom_symbol" [.tok "C"], .node "atom_label" [.tok "11"]]]

/-- C4 counterexample: a ring-closure digit appearing twice on the same atom
is not a reported error — both occurrences of digit `1` sit on the atom at
path `[0]`, the bucket unpacks fine, and `_add_label_edges` succeeds, adding
a self-loop edge. -/
theorem add_label_edges_self_loop_cex :
    labelOccs selfLoopPattern = [('1', [0]), ('1', [0])] ∧
    _add_label_edges selfLoopPattern = .ok [([0], [0])] :=
  ⟨rfl, rfl⟩

/-- C4 amended: a pattern with no `atom_label` nodes adds no ring edges and
is not an error; on success, the ring-closure edges are exactly one edge per
digit whose bucket holds exactly two occurrences — between the two owning
atoms, which need not be distinct (two occurrences on one atom yield a
self-loop, not an error); and a digit whose bucket has any other nonzero
size makes `_add_label_edges` raise a `ValueError`, not produce a partial
result. -/
theorem add_label_edges_amended (ast : AST) :
    (select "atom_label" ast = [] → _add_label_edges ast = .ok []) ∧
    (∀ es, _add_label_edges ast = .ok es →
      ∀ p₁ p₂ : Path, (p₁, p₂) ∈ es ↔ ∃ d, groupGet (labelOccs ast) d = [p₁, p₂]) ∧
    ((∃ d, groupGet (labelOccs ast) d ≠ [] ∧ (groupGet (labelOccs ast) d).length ≠ 2) →
      ∃ msg, _add_label_edges ast = .error (.valueError msg)) := by
  refine ⟨?_, ?_, ?_⟩
  · intro h
    simp [_add_label_edges, h]
  · intro es h p₁ p₂
    by_cases hl : (select "atom_label" ast).isEmpty
    · rw [_add_label_edges, if_pos hl] at h
      cases h
      have hocc : labelOccs ast = [] :=
        labelOccs_of_no_labels (List.isEmpty_iff.mp hl)
      simp [hocc, groupGet]
    · rw [_add_label_edges, if_neg hl] at h
      constructor
      · intro hmem
        obtain ⟨d, _, hfd⟩ := mapExcept_ok_mem h _ hmem
        unfold unpackPair at hfd
        split at hfd
        · cases hfd
        · cases hfd
        · next heq => cases hfd; exact ⟨d, heq⟩
        · cases hfd
      · rintro ⟨d, hd⟩
        have hdk : d ∈ firstDedup ((labelOccs ast).map (·.1)) [] := by
          rw [firstDedup_mem]
          exact ⟨groupGet_ne_nil (by simp [hd]), by simp⟩
        obtain ⟨y, hy, hmem⟩ := mapExcept_ok_forall h d hdk
        unfold unpackPair at hy
        rw [hd] at hy
        cases hy
        exact hmem
  · rintro ⟨d, hne, hlen⟩
    have hl : ¬(select "atom_label" ast).isEmpty := by
      intro hl
      exact hne (by simp [groupGet, labelOccs_of_no_labels (List.isEmpty_iff.mp hl)])
    have hdk : d ∈ firstDedup ((labelOccs ast).map (·.1)) [] := by
      rw [firstDedup_mem]
      exact ⟨groupGet_ne_nil hne, by simp⟩
    have herr : ∃ msg, unpackPair (labelOccs ast) d = .error (.valueError msg) := by
      unfold unpackPair
      split
      · exact ⟨_, rfl⟩
      · exact ⟨_, rfl⟩
      · next a₁ a₂ heq => exact absurd (by rw [heq]; rfl) hlen
      · exact ⟨_, rfl⟩
    cases hres : _add_label_edges ast with
    | ok es =>
      rw [_add_label_edges, if_neg hl] at hres
      obtain ⟨y, hy, _⟩ := mapExcept_ok_forall hres d hdk
      obtain ⟨msg, hmsg⟩ := herr
      rw [hmsg] at hy
      cases hy
    | error e =>
      have he : ∃ x ∈ firstDedup ((labelOccs ast).map (·.1)) [],
          unpackPair (labelOccs ast) x = .error e := by
        apply mapExcept_error
        rw [_add_label_edges, if_neg hl] at hres
        exact hres
      obtain ⟨x, _, hx⟩ := he
      unfold unpackPair at hx
      split at hx <;> first
        | (cases hx; exact ⟨_, rfl⟩)
        | (cases hx)

/-- Two atoms sharing ring-closure digit `1`, one label each. -/
def ringPairPattern : AST :=
  .node "start" [
    .node "atom" [.node "atom_symbol" [.tok "C"], .node "atom_label" [.tok "1"]],
    .node "atom" [.node "atom_symbol" [.tok "C"], .node "atom_label" [.tok "1"]]]

/-- One atom carrying ring-closure digit `1` exactly once. -/
def danglingLabelPattern : AST :=
  .node "start" [
    .node "atom" [.node "atom_symbol" [.tok "C"], .node "atom_label" [.tok "1"]]]

theorem add_label_edges_amended_witness :
    ((((([0] : Path), ([1] : Path)) ∈ [(([0] : Path), ([1] : Path))]) ↔
      ∃ d, groupGet (labelOccs ringPairPattern) d = [[0], [1]]) ∧
    (∃ msg, _add_label_edges danglingLabelPattern = .error (.valueError msg))) := by
  constructor
  · exact (add_label_edges_amended ringPairPattern).2.1 _ rfl [0] [1]
  · exact (add_label_edges_amended danglingLabelPattern).2.2 ⟨'1', by decide, by decide⟩

theorem add_edges_branch_trunk_witness :
    (_add_edges (.node "branch" [.node "atom" [.node "atom_symbol" [.tok "C"]]]) [1] none =
      .error (.foyerError "Can't add branch without a trunk")) ∧
    ([1, 0], [0]) ∈ [([1, 0], ([0] : Path))] := by
  constructor
  · exact (add_edges_branch_trunk [1] [0] [.node "atom_symbol" [.tok "C"]] []).1
  · exact (add_edges_branch_trunk [1] [0] [.node "atom_symbol" [.tok "C"]] []).2 _ rfl

/-- C3: one `find_matches` call never yields the same atom index twice, even
when several distinct embeddings bind the same atom to the root node — the
`matched_atoms` set filters repeats. -/
theorem find_matches_no_duplicate_atoms (cycle_basis : CycleBasisFn) (g : SMARTSGraph)
    (topology : Option Topology) (ys : List Nat)
    (h : find_matches cycle_basis g topology = .ok ys) : ys.Nodup := by
  cases topology with
  | none =>
    rw [find_matches] at h
    cases h
    exact List.nodup_nil
  | some topo =>
    rw [find_matches, except_bind_ok] at h
    obtain ⟨topo', hp, h⟩ := h
    split at h
    · cases h
    · next fa hh =>
      rw [except_bind_ok] at h
      obtain ⟨mappings, hmaps, hd⟩ := h
      exact (dedupLoop_props mappings fa.1 [] ys hd).1

/-- A two-atom chain pattern `[#6][#8]` as parsed. -/
def coPattern : AST :=
  .node "start" [
    .node "atom" [.node "atom_id" [.node "atomic_num" [.tok "6"]]],
    .node "atom" [.node "atom_id" [.node "atomic_num" [.tok "8"]]]]

/-- The pattern graph `SMARTSGraph.build` produces for `coPattern`. -/
def coGraph : SMARTSGraph :=
  { nodes := [([0], .node "atom" [.node "atom_id" [.node "atomic_num" [.tok "6"]]]),
              ([1], .node "atom" [.node "atom_id" [.node "atomic_num" [.tok "8"]]])],
    edges := [([0], [1])],
    ast := coPattern }

theorem find_matches_no_duplicate_atoms_witness :
    find_matches witnessCB coGraph (some witnessTopo) = .ok [0] ∧ List.Nodup [0] :=
  ⟨rfl, find_matches_no_duplicate_atoms witnessCB coGraph (some witnessTopo) [0] rfl⟩

/-- C1: every atom index yielded by `find_matches` is the molecule atom bound
to the pattern graph's root node — the first-inserted node, i.e. the first
`atom` node of the pattern in document order — under some embedding of the
pattern graph into the (prepared) molecule graph. -/
theorem find_matches_root_projection (cycle_basis : CycleBasisFn) (ast : AST)
    (g : SMARTSGraph) (topo : Topology) (ys : List Nat) (i : Nat)
    (hbuild : SMARTSGraph.build ast = .ok g)
    (hrun : find_matches cycle_basis g (some topo) = .ok ys)
    (hi : i ∈ ys) :
    ∃ topo' root m,
      _prepare_atoms cycle_basis topo = .ok topo' ∧
      g.nodes.head?.map (·.1) = some root ∧
      (select "atom" ast).head?.map (·.1) = some root ∧
      IsEmbedding g topo' m ∧
      invLookup m root = some i := by
  have hnodes : g.nodes = select "atom" ast := by
    rw [SMARTSGraph.build, except_bind_ok] at hbuild
    obtain ⟨es₁, h1, hbuild⟩ := hbuild
    rw [except_bind_ok] at hbuild
    obtain ⟨es₂, h2, hbuild⟩ := hbuild
    simp only [Pure.pure] at hbuild
    cases hbuild
    rfl
  rw [find_matches, except_bind_ok] at hrun
  obtain ⟨topo', hp, hrun⟩ := hrun
  split at hrun
  · cases hrun
  · next fa hh =>
    rw [except_bind_ok] at hrun
    obtain ⟨mappings, hmaps, hd⟩ := hrun
    obtain ⟨_, _, hex⟩ := dedupLoop_props mappings fa.1 [] ys hd
    obtain ⟨m, hm, hinv⟩ := hex i hi
    refine ⟨topo', fa.1, m, hp, ?_, ?_, subgraph_isomorphisms_sound hmaps hm, hinv⟩
    · rw [hh]
      rfl
    · rw [← hnodes, hh]
      rfl

theorem find_matches_root_projection_witness :
    SMARTSGraph.build coPattern = .ok coGraph ∧
    (∃ topo' root m,
      _prepare_atoms witnessCB witnessTopo = .ok topo' ∧
      coGraph.nodes.head?.map (·.1) = some root ∧
      (select "atom" coPattern).head?.map (·.1) = some root ∧
      IsEmbedding coGraph topo' m ∧
      invLookup m root = some 0) :=
  ⟨rfl, find_matches_root_projection witnessCB coPattern coGraph witnessTopo [0] 0 rfl rfl
    (List.mem_singleton.mpr rfl)⟩

end Foyer
